import Mathlib

/-!
Shallow embedding of the WebSocket connection/room manager of
core/websocket.py and the echo endpoint of controllers/websocket_api.py.

Connections are identified by their identity (Python id), modelled as Nat.
Python sets are modelled as duplicate-free lists, Python dicts as
insertion-ordered association lists.  The aiohttp transport is modelled by
an environment giving, for each connection, whether it is closed and
whether send_str raises.  json.loads is external library code; an inbound
text frame carries the parse result directly (none models JSONDecodeError).
-/

namespace WS

/-- JSON values, first-order encoding: objects and arrays are encoded as
cons-chains inside the single inductive so equality is derivable. -/
inductive J where
  | null : J
  | jb (b : Bool) : J
  | jn (n : Int) : J
  | js (s : String) : J
  | objNil : J
  | objCons (key : String) (val : J) (rest : J) : J
  | arrNil : J
  | arrCons (hd : J) (tl : J) : J
deriving DecidableEq, Repr

/-- Field lookup in an object-encoded J value (first match wins, as in a
Python dict, whose keys are unique). -/
def J.lookupField : J → String → Option J
  | J.objCons k v rest, key => if k = key then some v else rest.lookupField key
  | _, _ => none

/-- Connection identity: a stable opaque handle, modelled as Nat. -/
abbrev Conn := Nat

/-- Python set.add: insert if absent. -/
def setAdd (s : List Conn) (ws : Conn) : List Conn :=
  if ws ∈ s then s else s ++ [ws]

/-- Python set.discard: remove if present, no error otherwise. -/
def setDiscard (s : List Conn) (ws : Conn) : List Conn :=
  s.filter (fun c => c ≠ ws)

/-- Python dict lookup (d.get(k) / d[k] guarded by k in d). -/
def dictLookup {α β : Type} [DecidableEq α] (d : List (α × β)) (k : α) : Option β :=
  match d with
  | [] => none
  | p :: rest => if p.1 = k then some p.2 else dictLookup rest k

/-- Python dict assignment d[k] = v: update in place if the key exists,
append otherwise (insertion order preserved). -/
def dictSet {α β : Type} [DecidableEq α] (d : List (α × β)) (k : α) (v : β) :
    List (α × β) :=
  if (dictLookup d k).isSome then
    d.map (fun p => if p.1 = k then (k, v) else p)
  else
    d ++ [(k, v)]

/-- Python del d[k] (and dict.pop(k, None) for the mapping part). -/
def dictDel {α β : Type} [DecidableEq α] (d : List (α × β)) (k : α) : List (α × β) :=
  d.filter (fun p => p.1 ≠ k)

/-- Python truthiness of an optional string argument (if room: fires only
for a non-None, non-empty string). -/
def truthy : Option String → Bool
  | none => false
  | some s => !s.isEmpty

/-- State of WebSocketManager: the global connection set (_connections),
the room index (_rooms) and the per-connection metadata
(_connection_metadata). -/
structure WebSocketManager where
  connections : List Conn
  rooms : List (String × List Conn)
  connMeta : List (Conn × J)
deriving DecidableEq, Repr

/-- The freshly constructed manager (WebSocketManager.__init__). -/
def emptyManager : WebSocketManager := ⟨[], [], []⟩

/-- get_room_count: 0 when the room key is absent, else the member count. -/
def get_room_count (m : WebSocketManager) (room : String) : Nat :=
  match dictLookup m.rooms room with
  | none => 0
  | some s => s.length

/-- list_rooms: the room index keys. -/
def list_rooms (m : WebSocketManager) : List String :=
  m.rooms.map Prod.fst

/-- connection_count property. -/
def connection_count (m : WebSocketManager) : Nat :=
  m.connections.length

/-- Members of a room as recorded in the index (empty when absent). -/
def roomMembers (m : WebSocketManager) (room : String) : List Conn :=
  (dictLookup m.rooms room).getD []

/-- The room-insertion block shared by connect and join_room: create the
room with an empty member set when absent, then add the connection. -/
def addToRoom (rooms : List (String × List Conn)) (r : String) (ws : Conn) :
    List (String × List Conn) :=
  let rooms1 := if (dictLookup rooms r).isSome then rooms else dictSet rooms r []
  dictSet rooms1 r (setAdd ((dictLookup rooms1 r).getD []) ws)

/-- The room-removal block shared by disconnect and leave_room: when the
room is present, discard the connection from it and delete the room if it
became empty. -/
def removeFromRoom (rooms : List (String × List Conn)) (r : String) (ws : Conn) :
    List (String × List Conn) :=
  match dictLookup rooms r with
  | none => rooms
  | some members =>
    let members1 := setDiscard members ws
    if members1.isEmpty then dictDel rooms r else dictSet rooms r members1

/-- WebSocketManager.connect: add to the global set; record metadata when
the argument is truthy; when the room argument is truthy, create the room
if absent and add the connection to it. -/
def connect (m : WebSocketManager) (ws : Conn) (room : Option String)
    (metadata : Option J) : WebSocketManager :=
  let m1 : WebSocketManager := { m with connections := setAdd m.connections ws }
  let m2 : WebSocketManager :=
    match metadata with
    | some v => if v = J.objNil then m1 else { m1 with connMeta := dictSet m1.connMeta ws v }
    | none => m1
  if truthy room then { m2 with rooms := addToRoom m2.rooms (room.getD "") ws }
  else m2

/-- WebSocketManager.disconnect: discard from the global set, pop the
metadata entry, and when the room argument is truthy and present in the
index, discard the connection from it, deleting the room if it became
empty. -/
def disconnect (m : WebSocketManager) (ws : Conn) (room : Option String) : WebSocketManager :=
  let m1 : WebSocketManager :=
    { m with connections := setDiscard m.connections ws,
             connMeta := dictDel m.connMeta ws }
  if truthy room then { m1 with rooms := removeFromRoom m1.rooms (room.getD "") ws }
  else m1

/-- WebSocketManager.join_room: create the room if absent, then add. -/
def join_room (m : WebSocketManager) (ws : Conn) (room : String) : WebSocketManager :=
  { m with rooms := addToRoom m.rooms room ws }

/-- WebSocketManager.leave_room: when the room is present, discard the
connection and delete the room if it became empty. -/
def leave_room (m : WebSocketManager) (ws : Conn) (room : String) : WebSocketManager :=
  { m with rooms := removeFromRoom m.rooms room ws }

/-- Transport environment: for each connection, whether the underlying
socket is closed (ws.closed) and whether ws.send_str raises.  Both are
stable over one manager call, matching the snapshot the code iterates. -/
structure NetEnv where
  closed : Conn → Bool
  sendFails : Conn → Bool

/-- Observable outcome of one broadcast call: the returned counter, the
connections send_str was invoked on, and those for which it returned
without raising. -/
structure BroadcastTrace where
  sent : Nat
  attempted : List Conn
  delivered : List Conn
deriving DecidableEq, Repr

/-- The target collection of broadcast: the room's member set via
_rooms.get(room, set()) when the room argument is truthy, else the global
connection set. -/
def broadcastTargets (m : WebSocketManager) (room : Option String) : List Conn :=
  if truthy room then (dictLookup m.rooms (room.getD "")).getD [] else m.connections

/-- The for-loop body of broadcast: skip closed connections and the
excluded one (identity comparison, never equal to None); count a send
that does not raise; a raising send is caught and logged. -/
def broadcastLoop (env : NetEnv) (exclude : Option Conn) : List Conn → BroadcastTrace
  | [] => ⟨0, [], []⟩
  | ws :: rest =>
    if env.closed ws || some ws == exclude then broadcastLoop env exclude rest
    else
      let t := broadcastLoop env exclude rest
      if env.sendFails ws then ⟨t.sent, ws :: t.attempted, t.delivered⟩
      else ⟨t.sent + 1, ws :: t.attempted, ws :: t.delivered⟩

/-- WebSocketManager.broadcast.  The message is serialized once and the
same string is sent everywhere; serialization itself cannot fail, so the
message value does not influence the control flow. -/
def broadcast (env : NetEnv) (m : WebSocketManager) (_message : J)
    (room : Option String) (exclude : Option Conn) : BroadcastTrace :=
  broadcastLoop env exclude (broadcastTargets m room)

/-- WebSocketManager.send_to: False for a closed connection, True when the
send does not raise, False (after logging, not an exception) when it
does.  Totality of this function models that no exception escapes. -/
def send_to (env : NetEnv) (ws : Conn) (_message : J) : Bool :=
  if env.closed ws then false
  else if env.sendFails ws then false
  else true

/-!  Session loop (websocket_handler).  Inbound frames carry the json.loads
result of their payload (none = JSONDecodeError); WSMsgType.ERROR frames
are a separate constructor; the frame list ends when the peer closes. -/

/-- One inbound frame of the session loop. -/
inductive Frame where
  | text (parsed : Option J) : Frame
  | err : Frame
deriving DecidableEq, Repr

/-- Observable events of one handler run, in order. -/
inductive Event where
  | connected (ws : Conn) : Event
  | calledOnConnect (ws : Conn) : Event
  | calledOnMessage (ws : Conn) (data : J) : Event
  | sentTo (ws : Conn) (msg : J) (ok : Bool) : Event
  | wsError (ws : Conn) : Event
  | calledOnDisconnect (ws : Conn) : Event
  | disconnected (ws : Conn) : Event
deriving DecidableEq, Repr

/-- State threaded through one handler run: the shared manager plus the
event log. -/
structure SessionState where
  mgr : WebSocketManager
  log : List Event
deriving DecidableEq, Repr

/-- Append one event. -/
def logEvent (s : SessionState) (e : Event) : SessionState :=
  { s with log := s.log ++ [e] }

/-- Application exceptions raised by caller-supplied callbacks. -/
abbrev Err := Nat

/-- A lifecycle callback: runs on the shared state and either returns the
updated state or raises. -/
abbrev Callback := Conn → SessionState → Except Err SessionState

/-- A message callback: also receives the parsed payload. -/
abbrev MsgCallback := Conn → J → SessionState → Except Err SessionState

/-- The three optional caller-supplied callbacks of websocket_handler. -/
structure Callbacks where
  on_message : Option MsgCallback
  on_connect : Option Callback
  on_disconnect : Option Callback

/-- The error reply sent on a JSONDecodeError. -/
def invalidJsonReply : J :=
  J.objCons "error" (J.js "Invalid JSON") J.objNil

/-- The default echo envelope: type echo with the parsed payload under
data. -/
def echoEnvelope (d : J) : J :=
  J.objCons "type" (J.js "echo") (J.objCons "data" d J.objNil)

/-- The async-for body of websocket_handler: a text frame that fails to
parse gets one best-effort error reply and the loop continues; a parsed
frame goes to on_message when given (an exception there exits the loop
carrying the error), else to the default echo reply; an ERROR frame is
logged and the loop continues; the loop ends when the frames end. -/
def runLoop (env : NetEnv) (cbs : Callbacks) (ws : Conn) :
    List Frame → SessionState → SessionState × Option Err
  | [], s => (s, none)
  | Frame.text none :: rest, s =>
    runLoop env cbs ws rest
      (logEvent s (Event.sentTo ws invalidJsonReply (send_to env ws invalidJsonReply)))
  | Frame.text (some d) :: rest, s =>
    (match cbs.on_message with
     | some f =>
       match f ws d (logEvent s (Event.calledOnMessage ws d)) with
       | Except.ok s1 => runLoop env cbs ws rest s1
       | Except.error e => (logEvent s (Event.calledOnMessage ws d), some e)
     | none =>
       runLoop env cbs ws rest
         (logEvent s (Event.sentTo ws (echoEnvelope d) (send_to env ws (echoEnvelope d)))))
  | Frame.err :: rest, s => runLoop env cbs ws rest (logEvent s (Event.wsError ws))

/-- The finally block: invoke on_disconnect when given (an exception there
replaces any pending error and skips the deregistration), then disconnect
from the registry and the room; the pending loop error survives an
uneventful finally. -/
def runFinally (cbs : Callbacks) (room : Option String) (ws : Conn)
    (s : SessionState) (pending : Option Err) : SessionState × Option Err :=
  match cbs.on_disconnect with
  | none =>
    (logEvent { s with mgr := disconnect s.mgr ws room } (Event.disconnected ws), pending)
  | some f =>
    let s1 := logEvent s (Event.calledOnDisconnect ws)
    match f ws s1 with
    | Except.ok s2 =>
      (logEvent { s2 with mgr := disconnect s2.mgr ws room } (Event.disconnected ws), pending)
    | Except.error e => (s1, some e)

/-- The state right after ws_manager.connect(ws, room) inside the
handler (metadata is not passed there). -/
def afterConnect (room : Option String) (ws : Conn) (s0 : SessionState) : SessionState :=
  logEvent { s0 with mgr := connect s0.mgr ws room none } (Event.connected ws)

/-- The on_connect step as the handler performs it: identity when absent. -/
def runOnConnect (cbs : Callbacks) (ws : Conn) (s : SessionState) :
    Except Err SessionState :=
  match cbs.on_connect with
  | none => Except.ok s
  | some f => f ws (logEvent s (Event.calledOnConnect ws))

/-- The on_disconnect step of the finally block: identity when absent. -/
def runOnDisconnect (cbs : Callbacks) (ws : Conn) (s : SessionState) :
    Except Err SessionState :=
  match cbs.on_disconnect with
  | none => Except.ok s
  | some f => f ws (logEvent s (Event.calledOnDisconnect ws))

/-- websocket_handler: prepare (external), register with the manager,
invoke on_connect — outside the try block, so an exception there skips
the finally path — then run the receive loop with the finally block
around it.  The second component is the exception surfacing to the
caller, if any. -/
def websocket_handler (env : NetEnv) (cbs : Callbacks) (room : Option String)
    (ws : Conn) (frames : List Frame) (s0 : SessionState) :
    SessionState × Option Err :=
  let s1 := afterConnect room ws s0
  match cbs.on_connect with
  | some f =>
    let s2 := logEvent s1 (Event.calledOnConnect ws)
    match f ws s2 with
    | Except.error e => (s2, some e)
    | Except.ok s3 =>
      let r := runLoop env cbs ws frames s3
      runFinally cbs room ws r.1 r.2
  | none =>
    let r := runLoop env cbs ws frames s1
    runFinally cbs room ws r.1 r.2

/-- The message callback installed by the echo endpoint
(WebSocketApiController.echo_handler): send the echo envelope back to the
sender via send_to. -/
def echo_on_message (env : NetEnv) : MsgCallback := fun ws d s =>
  Except.ok (logEvent s (Event.sentTo ws (echoEnvelope d) (send_to env ws (echoEnvelope d))))

/-!  Operation language over the shared manager, for the sequence-level
claims about connect/disconnect/join_room/leave_room. -/

/-- One registry operation. -/
inductive Op where
  | connect (ws : Conn) (room : Option String) (metadata : Option J) : Op
  | disconnect (ws : Conn) (room : Option String) : Op
  | join (ws : Conn) (room : String) : Op
  | leave (ws : Conn) (room : String) : Op
deriving DecidableEq, Repr

/-- Apply one operation. -/
def applyOp (m : WebSocketManager) : Op → WebSocketManager
  | Op.connect ws room md => connect m ws room md
  | Op.disconnect ws room => disconnect m ws room
  | Op.join ws room => join_room m ws room
  | Op.leave ws room => leave_room m ws room

/-- Apply a sequence of operations, first element first. -/
def applyOps (m : WebSocketManager) : List Op → WebSocketManager
  | [] => m
  | op :: rest => applyOps (applyOp m op) rest

/-- The registry invariant: every connection recorded in any room of the
index is also in the global connection set. -/
def InvRoomsSub (m : WebSocketManager) : Prop :=
  ∀ p ∈ m.rooms, ∀ c ∈ p.2, c ∈ m.connections

instance (m : WebSocketManager) : Decidable (InvRoomsSub m) := by
  unfold InvRoomsSub; infer_instance

/-- The room-index invariant: no room of the index is empty. -/
def InvNoEmptyRoom (m : WebSocketManager) : Prop :=
  ∀ p ∈ m.rooms, p.2 ≠ []

instance (m : WebSocketManager) : Decidable (InvNoEmptyRoom m) := by
  unfold InvNoEmptyRoom; infer_instance

/-- Guard under which one operation preserves InvRoomsSub: join_room is
applied only to a connection already in the global set, and disconnect is
applied only when the connection belongs to no room other than the one
being left with it (and the named room is effective, i.e. non-empty). -/
def opGuard (m : WebSocketManager) : Op → Bool
  | Op.join ws _ => ws ∈ m.connections
  | Op.disconnect ws room =>
    m.rooms.all (fun p => ws ∉ p.2 ∨ (room = some p.1 ∧ p.1 ≠ ""))
  | _ => true

/-- A sequence is guarded when each operation satisfies its guard in the
state it is applied to. -/
def guardedSeq (m : WebSocketManager) : List Op → Bool
  | [] => true
  | op :: rest => opGuard m op && guardedSeq (applyOp m op) rest

/-- Whether an operation can create the given room key: only a join_room
on it, or a connect with it as an effective (truthy) room argument. -/
def opCreatesRoom (r : String) : Op → Bool
  | Op.connect _ room _ => room == some r && truthy room
  | Op.join _ room => room == r
  | _ => false

/-- Property of a room argument under which a room removal is a no-op:
the room key is absent, or the connection is not a member and the member
set is non-empty. -/
def roomNoopCondB (m : WebSocketManager) (ws : Conn) (r : String) : Bool :=
  match dictLookup m.rooms r with
  | none => true
  | some mem => decide (ws ∉ mem) && decide (mem ≠ [])

/-!  Concrete fixtures used to instantiate the quantified theorems. -/

/-- A transport where every connection is open and every send succeeds. -/
def envAllOpen : NetEnv := ⟨fun _ => false, fun _ => false⟩

/-- A transport where exactly connection 1 is closed and sends succeed. -/
def envOneClosed : NetEnv := ⟨fun c => c == 1, fun _ => false⟩

/-- No callbacks installed. -/
def cbsNone : Callbacks := ⟨none, none, none⟩

/-- on_connect raises; on_disconnect present and well-behaved. -/
def cbsOnConnectRaises : Callbacks :=
  ⟨none, some (fun _ _ => Except.error 3), some (fun _ s => Except.ok s)⟩

/-- on_message raises on every message. -/
def cbsOnMessageRaises : Callbacks :=
  ⟨some (fun _ _ _ => Except.error 7), none, none⟩

/-- A fresh session over a fresh manager. -/
def emptySession : SessionState := ⟨emptyManager, []⟩

/-- Three globally registered connections, no rooms. -/
def mThree : WebSocketManager :=
  applyOps emptyManager [Op.connect 0 none none, Op.connect 1 none none,
    Op.connect 2 none none]

/-- Connections 0 and 1 in room A, connection 2 in room B. -/
def mRooms : WebSocketManager :=
  applyOps emptyManager [Op.connect 0 (some "A") none, Op.connect 1 (some "A") none,
    Op.connect 2 (some "B") none]

/-!  Helper lemmas about the set and dict encodings. -/

theorem mem_setAdd {s : List Conn} {ws c : Conn} :
    c ∈ setAdd s ws ↔ c ∈ s ∨ c = ws := by
  unfold setAdd
  by_cases h : ws ∈ s
  · simp only [if_pos h]
    constructor
    · exact Or.inl
    · rintro (hc | rfl)
      · exact hc
      · exact h
  · simp [if_neg h]

theorem mem_setDiscard {s : List Conn} {ws c : Conn} :
    c ∈ setDiscard s ws ↔ c ∈ s ∧ c ≠ ws := by
  unfold setDiscard
  simp [List.mem_filter]

theorem setAdd_ne_nil (s : List Conn) (ws : Conn) : setAdd s ws ≠ [] := by
  unfold setAdd
  by_cases h : ws ∈ s
  · simp only [if_pos h]
    intro hnil
    rw [hnil] at h
    exact absurd h (List.not_mem_nil ws)
  · simp [if_neg h]

theorem setDiscard_eq_of_not_mem {s : List Conn} {ws : Conn} (h : ws ∉ s) :
    setDiscard s ws = s := by
  unfold setDiscard
  apply List.filter_eq_self.2
  intro c hc
  simp only [ne_eq, decide_eq_true_eq]
  rintro rfl
  exact h hc

section DictLemmas

variable {α β : Type} [DecidableEq α]

theorem dictLookup_mem {d : List (α × β)} {k : α} {v : β}
    (h : dictLookup d k = some v) : (k, v) ∈ d := by
  induction d with
  | nil => simp [dictLookup] at h
  | cons p rest ih =>
    obtain ⟨a, b⟩ := p
    by_cases hp : a = k
    · subst hp
      simp only [dictLookup, if_pos rfl] at h
      have hv : b = v := Option.some.inj h
      subst hv
      exact List.mem_cons_self _ _
    · simp only [dictLookup, if_neg hp] at h
      exact List.mem_cons_of_mem _ (ih h)

theorem dictLookup_eq_none_iff {d : List (α × β)} {k : α} :
    dictLookup d k = none ↔ ∀ p ∈ d, p.1 ≠ k := by
  induction d with
  | nil => simp [dictLookup]
  | cons p rest ih =>
    by_cases hp : p.1 = k
    · simp [dictLookup, if_pos hp, hp]
    · simp [dictLookup, if_neg hp, ih, hp]

theorem mem_dictSet {d : List (α × β)} {k : α} {v : β} {p : α × β}
    (h : p ∈ dictSet d k v) : (p ∈ d ∧ p.1 ≠ k) ∨ p = (k, v) := by
  unfold dictSet at h
  by_cases hs : (dictLookup d k).isSome
  · simp only [if_pos hs, List.mem_map] at h
    obtain ⟨q, hq, hqe⟩ := h
    by_cases hk : q.1 = k
    · right
      rw [← hqe, if_pos hk]
    · left
      rw [← hqe, if_neg hk]
      exact ⟨hq, hk⟩
  · simp only [if_neg hs, List.mem_append, List.mem_singleton] at h
    rcases h with hd | he
    · left
      refine ⟨hd, ?_⟩
      intro hk
      rw [Option.not_isSome_iff_eq_none] at hs
      exact (dictLookup_eq_none_iff.1 hs p hd) hk
    · right
      exact he

theorem mem_dictDel {d : List (α × β)} {k : α} {p : α × β} :
    p ∈ dictDel d k ↔ p ∈ d ∧ p.1 ≠ k := by
  unfold dictDel
  simp [List.mem_filter]

theorem dictLookup_map_set_self {d : List (α × β)} {k : α} {v : β}
    (hs : (dictLookup d k).isSome) :
    dictLookup (d.map (fun p => if p.1 = k then (k, v) else p)) k = some v := by
  induction d with
  | nil => simp [dictLookup] at hs
  | cons p rest ih =>
    by_cases hp : p.1 = k
    · simp [dictLookup, if_pos hp]
    · simp only [dictLookup, if_neg hp] at hs
      simp only [List.map_cons, if_neg hp, dictLookup, if_neg hp]
      exact ih hs

theorem dictLookup_append_single_self {d : List (α × β)} {k : α} {v : β}
    (hn : dictLookup d k = none) :
    dictLookup (d ++ [(k, v)]) k = some v := by
  induction d with
  | nil => simp [dictLookup]
  | cons p rest ih =>
    by_cases hp : p.1 = k
    · simp [dictLookup, if_pos hp] at hn
    · simp only [dictLookup, if_neg hp] at hn
      simp only [List.cons_append, dictLookup, if_neg hp]
      exact ih hn

theorem dictLookup_dictSet_self {d : List (α × β)} {k : α} {v : β} :
    dictLookup (dictSet d k v) k = some v := by
  unfold dictSet
  by_cases hs : (dictLookup d k).isSome
  · rw [if_pos hs]
    exact dictLookup_map_set_self hs
  · rw [if_neg hs]
    exact dictLookup_append_single_self (Option.not_isSome_iff_eq_none.1 hs)

theorem dictLookup_map_set_ne {d : List (α × β)} {k k' : α} {v : β} (h : k' ≠ k) :
    dictLookup (d.map (fun p => if p.1 = k then (k, v) else p)) k' = dictLookup d k' := by
  induction d with
  | nil => simp [dictLookup]
  | cons p rest ih =>
    by_cases hp : p.1 = k
    · simp only [List.map_cons, if_pos hp, dictLookup]
      rw [if_neg (fun he => h he.symm), if_neg (by rw [hp]; exact fun he => h he.symm)]
      exact ih
    · simp only [List.map_cons, if_neg hp, dictLookup]
      by_cases hp' : p.1 = k'
      · rw [if_pos hp', if_pos hp']
      · rw [if_neg hp', if_neg hp']
        exact ih

theorem dictLookup_append_single_ne {d : List (α × β)} {k k' : α} {v : β} (h : k' ≠ k) :
    dictLookup (d ++ [(k, v)]) k' = dictLookup d k' := by
  induction d with
  | nil =>
    have hk : ¬(k = k') := fun he => h he.symm
    simp [dictLookup, hk]
  | cons p rest ih =>
    simp only [List.cons_append, dictLookup]
    by_cases hp' : p.1 = k'
    · rw [if_pos hp', if_pos hp']
    · rw [if_neg hp', if_neg hp']
      exact ih

theorem dictLookup_dictSet_ne {d : List (α × β)} {k k' : α} {v : β} (h : k' ≠ k) :
    dictLookup (dictSet d k v) k' = dictLookup d k' := by
  unfold dictSet
  by_cases hs : (dictLookup d k).isSome
  · rw [if_pos hs]
    exact dictLookup_map_set_ne h
  · rw [if_neg hs]
    exact dictLookup_append_single_ne h

theorem dictLookup_dictDel_self {d : List (α × β)} {k : α} :
    dictLookup (dictDel d k) k = none := by
  rw [dictLookup_eq_none_iff]
  intro p hp
  exact (mem_dictDel.1 hp).2

theorem dictLookup_dictDel_ne {d : List (α × β)} {k k' : α} (h : k' ≠ k) :
    dictLookup (dictDel d k) k' = dictLookup d k' := by
  induction d with
  | nil => rfl
  | cons p rest ih =>
    by_cases hp : p.1 = k
    · have hstep : dictDel (p :: rest) k = dictDel rest k := by
        simp [dictDel, List.filter_cons, hp]
      rw [hstep, ih, dictLookup, if_neg (by rw [hp]; exact fun he => h he.symm)]
    · have hstep : dictDel (p :: rest) k = p :: dictDel rest k := by
        simp [dictDel, List.filter_cons, hp]
      rw [hstep]
      by_cases hp' : p.1 = k'
      · rw [dictLookup, if_pos hp', dictLookup, if_pos hp']
      · rw [dictLookup, if_neg hp', dictLookup, if_neg hp']
        exact ih

theorem not_mem_keys_dictDel (d : List (α × β)) (k : α) :
    k ∉ (dictDel d k).map Prod.fst := by
  intro h
  obtain ⟨p, hp, hpe⟩ := List.mem_map.1 h
  exact (mem_dictDel.1 hp).2 hpe

theorem dictLookup_eq_none_of_not_mem_keys {d : List (α × β)} {k : α}
    (h : k ∉ d.map Prod.fst) : dictLookup d k = none := by
  rw [dictLookup_eq_none_iff]
  intro p hp hpk
  exact h (List.mem_map.2 ⟨p, hp, hpk⟩)

theorem mem_keys_of_dictLookup_isSome {d : List (α × β)} {k : α}
    (h : (dictLookup d k).isSome) : k ∈ d.map Prod.fst := by
  by_contra hk
  rw [dictLookup_eq_none_of_not_mem_keys hk] at h
  simp at h

end DictLemmas

/-!  Structural lemmas about the room blocks and the manager operations. -/

theorem truthy_some {r : String} (hr : r ≠ "") : truthy (some r) = true := by
  unfold truthy
  cases h : r.isEmpty with
  | false => simp [h]
  | true => exact absurd ((String.isEmpty_iff r).1 h) hr

theorem addToRoom_lookup_self (rooms : List (String × List Conn)) (r : String) (ws : Conn) :
    dictLookup (addToRoom rooms r ws) r =
      some (setAdd ((dictLookup rooms r).getD []) ws) := by
  unfold addToRoom
  by_cases hs : (dictLookup rooms r).isSome
  · simp only [hs, if_pos]
    exact dictLookup_dictSet_self
  · simp only [hs, if_neg, Bool.false_eq_true, not_false_iff]
    rw [show (dictLookup (dictSet rooms r ([] : List Conn)) r) = some [] from
      dictLookup_dictSet_self]
    rw [Option.not_isSome_iff_eq_none] at hs
    rw [hs]
    exact dictLookup_dictSet_self

theorem addToRoom_lookup_ne {rooms : List (String × List Conn)} {r r' : String}
    (ws : Conn) (hne : r' ≠ r) :
    dictLookup (addToRoom rooms r ws) r' = dictLookup rooms r' := by
  unfold addToRoom
  by_cases hs : (dictLookup rooms r).isSome
  · simp only [hs, if_pos]
    exact dictLookup_dictSet_ne hne
  · simp only [hs, if_neg, Bool.false_eq_true, not_false_iff]
    rw [dictLookup_dictSet_ne hne, dictLookup_dictSet_ne hne]

theorem mem_addToRoom {rooms : List (String × List Conn)} {r : String} {ws : Conn}
    {p : String × List Conn} (hp : p ∈ addToRoom rooms r ws) :
    (p ∈ rooms ∧ p.1 ≠ r) ∨ p = (r, setAdd ((dictLookup rooms r).getD []) ws) := by
  unfold addToRoom at hp
  by_cases hs : (dictLookup rooms r).isSome
  · simp only [hs, if_pos] at hp
    exact mem_dictSet hp
  · simp only [hs, if_neg, Bool.false_eq_true, not_false_iff] at hp
    rcases mem_dictSet hp with ⟨hp1, hpne⟩ | he
    · rcases mem_dictSet hp1 with ⟨hp2, _⟩ | he0
      · exact Or.inl ⟨hp2, hpne⟩
      · exact absurd (by rw [he0]) hpne
    · right
      rw [Option.not_isSome_iff_eq_none] at hs
      rw [show (dictLookup (dictSet rooms r ([] : List Conn)) r) = some [] from
        dictLookup_dictSet_self] at he
      rw [hs]
      simpa using he

theorem removeFromRoom_lookup_self {rooms : List (String × List Conn)} {r : String}
    {ws : Conn} {mem : List Conn} (hl : dictLookup rooms r = some mem) :
    dictLookup (removeFromRoom rooms r ws) r =
      (if (setDiscard mem ws).isEmpty then none else some (setDiscard mem ws)) := by
  unfold removeFromRoom
  simp only [hl]
  by_cases he : (setDiscard mem ws).isEmpty
  · simp only [he, if_pos]
    exact dictLookup_dictDel_self
  · simp only [he, if_neg, Bool.false_eq_true, not_false_iff]
    exact dictLookup_dictSet_self

theorem removeFromRoom_lookup_ne {rooms : List (String × List Conn)} {r r' : String}
    (ws : Conn) (hne : r' ≠ r) :
    dictLookup (removeFromRoom rooms r ws) r' = dictLookup rooms r' := by
  unfold removeFromRoom
  cases hl : dictLookup rooms r with
  | none => rfl
  | some members =>
    by_cases he : (setDiscard members ws).isEmpty
    · simp only [he, if_pos]
      exact dictLookup_dictDel_ne hne
    · simp only [he, if_neg, Bool.false_eq_true, not_false_iff]
      exact dictLookup_dictSet_ne hne

theorem mem_removeFromRoom {rooms : List (String × List Conn)} {r : String} {ws : Conn}
    {p : String × List Conn} (hp : p ∈ removeFromRoom rooms r ws) :
    (p ∈ rooms ∧ p.1 ≠ r) ∨
      (∃ mem, dictLookup rooms r = some mem ∧ p = (r, setDiscard mem ws) ∧
        (setDiscard mem ws).isEmpty = false) := by
  unfold removeFromRoom at hp
  cases hl : dictLookup rooms r with
  | none =>
    rw [hl] at hp
    by_cases hpr : p.1 = r
    · exact absurd hpr (dictLookup_eq_none_iff.1 hl p hp)
    · exact Or.inl ⟨hp, hpr⟩
  | some members =>
    rw [hl] at hp
    by_cases he : (setDiscard members ws).isEmpty
    · simp only [he, if_pos] at hp
      exact Or.inl (mem_dictDel.1 hp)
    · simp only [he, if_neg, Bool.false_eq_true, not_false_iff] at hp
      rcases mem_dictSet hp with hin | heq
      · exact Or.inl hin
      · exact Or.inr ⟨members, rfl, heq, Bool.eq_false_iff.2 he⟩

theorem disconnect_connections (m : WebSocketManager) (ws : Conn) (room : Option String) :
    (disconnect m ws room).connections = setDiscard m.connections ws := by
  unfold disconnect
  by_cases ht : truthy room <;> simp [ht]

theorem disconnect_connMeta (m : WebSocketManager) (ws : Conn) (room : Option String) :
    (disconnect m ws room).connMeta = dictDel m.connMeta ws := by
  unfold disconnect
  by_cases ht : truthy room <;> simp [ht]

theorem disconnect_rooms_not_truthy {m : WebSocketManager} {ws : Conn}
    {room : Option String} (ht : truthy room = false) :
    (disconnect m ws room).rooms = m.rooms := by
  unfold disconnect
  simp [ht]

theorem disconnect_rooms_truthy {m : WebSocketManager} {ws : Conn} {r : String}
    (hr : r ≠ "") :
    (disconnect m ws (some r)).rooms = removeFromRoom m.rooms r ws := by
  unfold disconnect
  simp [truthy_some hr]

theorem disconnect_not_mem_connections (m : WebSocketManager) (ws : Conn)
    (room : Option String) : ws ∉ (disconnect m ws room).connections := by
  rw [disconnect_connections]
  intro h
  exact (mem_setDiscard.1 h).2 rfl

theorem disconnect_not_mem_room {m : WebSocketManager} {ws : Conn} {r : String}
    (hr : r ≠ "") : ws ∉ roomMembers (disconnect m ws (some r)) r := by
  unfold roomMembers
  rw [disconnect_rooms_truthy hr]
  cases hl : dictLookup m.rooms r with
  | none =>
    unfold removeFromRoom
    simp [hl]
  | some members =>
    rw [removeFromRoom_lookup_self hl]
    by_cases he : (setDiscard members ws).isEmpty
    · simp [he]
    · simp only [he, if_neg, Bool.false_eq_true, not_false_iff, Option.getD_some]
      intro h
      exact (mem_setDiscard.1 h).2 rfl

theorem leave_room_not_mem_keys {m : WebSocketManager} {ws : Conn} {r : String}
    {mem : List Conn} (hl : dictLookup m.rooms r = some mem)
    (he : setDiscard mem ws = []) : r ∉ list_rooms (leave_room m ws r) := by
  unfold leave_room list_rooms removeFromRoom
  simp only [hl, he, List.isEmpty_nil, if_pos]
  exact not_mem_keys_dictDel m.rooms r

theorem connect_connections (m : WebSocketManager) (ws : Conn) (room : Option String)
    (md : Option J) : (connect m ws room md).connections = setAdd m.connections ws := by
  unfold connect
  cases md with
  | none => by_cases ht : truthy room <;> simp [ht]
  | some v =>
    by_cases hv : v = J.objNil <;> by_cases ht : truthy room <;> simp [hv, ht]

theorem connect_rooms (m : WebSocketManager) (ws : Conn) (room : Option String)
    (md : Option J) :
    (connect m ws room md).rooms =
      (if truthy room then addToRoom m.rooms (room.getD "") ws else m.rooms) := by
  unfold connect
  cases md with
  | none => by_cases ht : truthy room <;> simp [ht]
  | some v =>
    by_cases hv : v = J.objNil <;> by_cases ht : truthy room <;> simp [hv, ht]

/-!  Preservation of the registry invariant (every room member is globally
registered) under guarded operations. -/

theorem invRoomsSub_addToRoom {conns conns' : List Conn}
    {rooms : List (String × List Conn)} {ws : Conn} {r : String}
    (hInv : ∀ p ∈ rooms, ∀ c ∈ p.2, c ∈ conns)
    (hsub : ∀ c ∈ conns, c ∈ conns') (hws : ws ∈ conns') :
    ∀ p ∈ addToRoom rooms r ws, ∀ c ∈ p.2, c ∈ conns' := by
  intro p hp c hc
  rcases mem_addToRoom hp with ⟨hin, _⟩ | heq
  · exact hsub c (hInv p hin c hc)
  · rw [heq] at hc
    rcases mem_setAdd.1 hc with hcur | rfl
    · cases hl : dictLookup rooms r with
      | none =>
        rw [hl] at hcur
        simp at hcur
      | some mem0 =>
        rw [hl] at hcur
        exact hsub c (hInv (r, mem0) (dictLookup_mem hl) c (by simpa using hcur))
    · exact hws

theorem invRoomsSub_removeFromRoom {conns : List Conn}
    {rooms : List (String × List Conn)} {ws : Conn} {r : String}
    (hInv : ∀ p ∈ rooms, ∀ c ∈ p.2, c ∈ conns) :
    ∀ p ∈ removeFromRoom rooms r ws, ∀ c ∈ p.2, c ∈ conns := by
  intro p hp c hc
  rcases mem_removeFromRoom hp with ⟨hin, _⟩ | ⟨mem, hl, heq, _⟩
  · exact hInv p hin c hc
  · rw [heq] at hc
    exact hInv (r, mem) (dictLookup_mem hl) c (mem_setDiscard.1 (by simpa using hc)).1

theorem invRoomsSub_connect {m : WebSocketManager} (ws : Conn) (room : Option String)
    (md : Option J) (hInv : InvRoomsSub m) : InvRoomsSub (connect m ws room md) := by
  intro p hp c hc
  rw [connect_rooms] at hp
  rw [connect_connections]
  by_cases ht : truthy room
  · rw [if_pos ht] at hp
    exact invRoomsSub_addToRoom hInv (fun c hcc => mem_setAdd.2 (Or.inl hcc))
      (mem_setAdd.2 (Or.inr rfl)) p hp c hc
  · rw [if_neg ht] at hp
    exact mem_setAdd.2 (Or.inl (hInv p hp c hc))

theorem invRoomsSub_join_room {m : WebSocketManager} {ws : Conn} (room : String)
    (hInv : InvRoomsSub m) (hws : ws ∈ m.connections) :
    InvRoomsSub (join_room m ws room) := by
  intro p hp c hc
  exact invRoomsSub_addToRoom hInv (fun c hcc => hcc) hws p hp c hc

theorem invRoomsSub_leave_room {m : WebSocketManager} (ws : Conn) (room : String)
    (hInv : InvRoomsSub m) : InvRoomsSub (leave_room m ws room) := by
  intro p hp c hc
  exact invRoomsSub_removeFromRoom hInv p hp c hc

theorem invRoomsSub_disconnect {m : WebSocketManager} {ws : Conn} {room : Option String}
    (hInv : InvRoomsSub m)
    (hg : ∀ p ∈ m.rooms, ws ∉ p.2 ∨ (room = some p.1 ∧ p.1 ≠ "")) :
    InvRoomsSub (disconnect m ws room) := by
  intro p hp c hc
  rw [disconnect_connections, mem_setDiscard]
  by_cases ht : truthy room
  · obtain ⟨r, hrq, hrne⟩ : ∃ r, room = some r ∧ r ≠ "" := by
      cases room with
      | none => simp [truthy] at ht
      | some s =>
        refine ⟨s, rfl, ?_⟩
        intro hse
        rw [hse] at ht
        exact absurd ht (by decide)
    subst hrq
    rw [disconnect_rooms_truthy hrne] at hp
    rcases mem_removeFromRoom hp with ⟨hin, hpne⟩ | ⟨mem, hl, heq, _⟩
    · rcases hg p hin with hnm | ⟨hre, _⟩
      · refine ⟨hInv p hin c hc, ?_⟩
        rintro rfl
        exact hnm hc
      · exact absurd (Option.some.inj hre).symm hpne
    · rw [heq] at hc
      have hc' := mem_setDiscard.1 (by simpa using hc)
      exact ⟨hInv (r, mem) (dictLookup_mem hl) c hc'.1, hc'.2⟩
  · rw [disconnect_rooms_not_truthy (Bool.not_eq_true _ ▸ by simpa using ht)] at hp
    rcases hg p hp with hnm | ⟨hre, hne⟩
    · refine ⟨hInv p hp c hc, ?_⟩
      rintro rfl
      exact hnm hc
    · rw [hre] at ht
      exact absurd (truthy_some hne) ht

theorem invRoomsSub_applyOp {m : WebSocketManager} {op : Op}
    (hInv : InvRoomsSub m) (hg : opGuard m op = true) :
    InvRoomsSub (applyOp m op) := by
  cases op with
  | connect ws room md => exact invRoomsSub_connect ws room md hInv
  | disconnect ws room =>
    refine invRoomsSub_disconnect hInv ?_
    intro p hp
    simp only [opGuard, List.all_eq_true] at hg
    have := hg p hp
    exact of_decide_eq_true this
  | join ws room =>
    simp only [opGuard] at hg
    exact invRoomsSub_join_room room hInv (of_decide_eq_true hg)
  | leave ws room => exact invRoomsSub_leave_room ws room hInv

theorem invRoomsSub_applyOps {m : WebSocketManager} {ops : List Op}
    (hInv : InvRoomsSub m) (hg : guardedSeq m ops = true) :
    InvRoomsSub (applyOps m ops) := by
  induction ops generalizing m with
  | nil => exact hInv
  | cons op rest ih =>
    rw [guardedSeq, Bool.and_eq_true] at hg
    exact ih (invRoomsSub_applyOp hInv hg.1) hg.2

theorem guardedSeq_append {m : WebSocketManager} {pre suf : List Op}
    (hg : guardedSeq m (pre ++ suf) = true) : guardedSeq m pre = true := by
  induction pre generalizing m with
  | nil => rfl
  | cons op rest ih =>
    rw [List.cons_append, guardedSeq, Bool.and_eq_true] at hg
    rw [guardedSeq, Bool.and_eq_true]
    exact ⟨hg.1, ih hg.2⟩

theorem invRoomsSub_empty : InvRoomsSub emptyManager := by
  intro p hp
  simp [emptyManager] at hp

/-!  Preservation of the no-empty-room invariant: a room key present in
the index always has a non-empty member set. -/

theorem noEmpty_addToRoom {rooms : List (String × List Conn)} {r : String} {ws : Conn}
    (hInv : ∀ p ∈ rooms, p.2 ≠ []) :
    ∀ p ∈ addToRoom rooms r ws, p.2 ≠ [] := by
  intro p hp
  rcases mem_addToRoom hp with ⟨hin, _⟩ | heq
  · exact hInv p hin
  · rw [heq]
    exact setAdd_ne_nil _ ws

theorem noEmpty_removeFromRoom {rooms : List (String × List Conn)} {r : String} {ws : Conn}
    (hInv : ∀ p ∈ rooms, p.2 ≠ []) :
    ∀ p ∈ removeFromRoom rooms r ws, p.2 ≠ [] := by
  intro p hp
  rcases mem_removeFromRoom hp with ⟨hin, _⟩ | ⟨mem, _, heq, hne⟩
  · exact hInv p hin
  · rw [heq]
    intro hnil
    have hnil' : setDiscard mem ws = [] := hnil
    rw [hnil'] at hne
    simp at hne

theorem invNoEmptyRoom_applyOp {m : WebSocketManager} (op : Op)
    (hInv : InvNoEmptyRoom m) : InvNoEmptyRoom (applyOp m op) := by
  cases op with
  | connect ws room md =>
    intro p hp
    rw [show (applyOp m (Op.connect ws room md)).rooms = (connect m ws room md).rooms
      from rfl, connect_rooms] at hp
    by_cases ht : truthy room
    · rw [if_pos ht] at hp
      exact noEmpty_addToRoom hInv p hp
    · rw [if_neg ht] at hp
      exact hInv p hp
  | disconnect ws room =>
    intro p hp
    by_cases ht : truthy room
    · obtain ⟨r, hrq, hrne⟩ : ∃ r, room = some r ∧ r ≠ "" := by
        cases room with
        | none => simp [truthy] at ht
        | some s =>
          refine ⟨s, rfl, ?_⟩
          intro hse
          rw [hse] at ht
          exact absurd ht (by decide)
      subst hrq
      rw [show (applyOp m (Op.disconnect ws (some r))).rooms =
        (disconnect m ws (some r)).rooms from rfl, disconnect_rooms_truthy hrne] at hp
      exact noEmpty_removeFromRoom hInv p hp
    · rw [show (applyOp m (Op.disconnect ws room)).rooms =
        (disconnect m ws room).rooms from rfl,
        disconnect_rooms_not_truthy (Bool.not_eq_true _ ▸ by simpa using ht)] at hp
      exact hInv p hp
  | join ws room =>
    intro p hp
    exact noEmpty_addToRoom hInv p hp
  | leave ws room =>
    intro p hp
    exact noEmpty_removeFromRoom hInv p hp

theorem invNoEmptyRoom_applyOps {m : WebSocketManager} (ops : List Op)
    (hInv : InvNoEmptyRoom m) : InvNoEmptyRoom (applyOps m ops) := by
  induction ops generalizing m with
  | nil => exact hInv
  | cons op rest ih => exact ih (invNoEmptyRoom_applyOp op hInv)

theorem invNoEmptyRoom_empty : InvNoEmptyRoom emptyManager := by
  intro p hp
  simp [emptyManager] at hp

/-!  A room whose key was never created stays absent from the index. -/

theorem lookup_none_applyOp {m : WebSocketManager} {r : String} {op : Op}
    (hl : dictLookup m.rooms r = none) (hnc : opCreatesRoom r op = false) :
    dictLookup (applyOp m op).rooms r = none := by
  cases op with
  | connect ws room md =>
    rw [show (applyOp m (Op.connect ws room md)).rooms = (connect m ws room md).rooms
      from rfl, connect_rooms]
    by_cases ht : truthy room
    · rw [if_pos ht]
      simp only [opCreatesRoom, ht, Bool.and_true] at hnc
      have hne : r ≠ room.getD "" := by
        intro he
        cases room with
        | none => simp [truthy] at ht
        | some s =>
          simp only [Option.getD_some] at he
          rw [he] at hnc
          simp at hnc
      rw [addToRoom_lookup_ne ws hne]
      exact hl
    · rw [if_neg ht]
      exact hl
  | disconnect ws room =>
    by_cases ht : truthy room
    · obtain ⟨s, hrq, hsne⟩ : ∃ s, room = some s ∧ s ≠ "" := by
        cases room with
        | none => simp [truthy] at ht
        | some s =>
          refine ⟨s, rfl, ?_⟩
          intro hse
          rw [hse] at ht
          exact absurd ht (by decide)
      subst hrq
      rw [show (applyOp m (Op.disconnect ws (some s))).rooms =
        (disconnect m ws (some s)).rooms from rfl, disconnect_rooms_truthy hsne]
      by_cases hq : r = s
      · subst hq
        unfold removeFromRoom
        rw [hl]
        exact hl
      · rw [removeFromRoom_lookup_ne ws hq]
        exact hl
    · rw [show (applyOp m (Op.disconnect ws room)).rooms =
        (disconnect m ws room).rooms from rfl,
        disconnect_rooms_not_truthy (Bool.not_eq_true _ ▸ by simpa using ht)]
      exact hl
  | join ws room =>
    simp only [opCreatesRoom, beq_iff_eq] at hnc
    have hne : r ≠ room := by
      intro he
      rw [he] at hnc
      simp at hnc
    rw [show (applyOp m (Op.join ws room)).rooms = (join_room m ws room).rooms from rfl]
    unfold join_room
    rw [addToRoom_lookup_ne ws hne]
    exact hl
  | leave ws room =>
    rw [show (applyOp m (Op.leave ws room)).rooms = (leave_room m ws room).rooms from rfl]
    unfold leave_room
    by_cases hq : r = room
    · subst hq
      unfold removeFromRoom
      rw [hl]
      exact hl
    · rw [removeFromRoom_lookup_ne ws hq]
      exact hl

theorem lookup_none_applyOps {m : WebSocketManager} {r : String} {ops : List Op}
    (hl : dictLookup m.rooms r = none)
    (hnc : ∀ op ∈ ops, opCreatesRoom r op = false) :
    dictLookup (applyOps m ops).rooms r = none := by
  induction ops generalizing m with
  | nil => exact hl
  | cons op rest ih =>
    exact ih (lookup_none_applyOp hl (hnc op (List.mem_cons_self op rest)))
      (fun o ho => hnc o (List.mem_cons_of_mem op ho))

/-!  No-op lemmas for removals that touch nothing (C6 support). -/

theorem dictDel_eq_of_lookup_none {α β : Type} [DecidableEq α] {d : List (α × β)} {k : α}
    (h : dictLookup d k = none) : dictDel d k = d := by
  unfold dictDel
  apply List.filter_eq_self.2
  intro p hp
  simp only [ne_eq, decide_eq_true_eq]
  exact dictLookup_eq_none_iff.1 h p hp

theorem map_set_id {α β : Type} [DecidableEq α] {d : List (α × β)} {k : α} {v : β}
    (h : ∀ q ∈ d, q.1 ≠ k) :
    d.map (fun p => if p.1 = k then (k, v) else p) = d := by
  induction d with
  | nil => rfl
  | cons p rest ih =>
    rw [List.map_cons, if_neg (h p (List.mem_cons_self p rest)),
      ih (fun q hq => h q (List.mem_cons_of_mem p hq))]

theorem dictSet_lookup_eq_self {α β : Type} [DecidableEq α] {d : List (α × β)} {k : α}
    {v : β} (hnd : (d.map Prod.fst).Nodup) (hl : dictLookup d k = some v) :
    dictSet d k v = d := by
  unfold dictSet
  rw [hl]
  simp only [Option.isSome_some, if_pos]
  induction d with
  | nil => simp [dictLookup] at hl
  | cons p rest ih =>
    rw [List.map_cons, List.nodup_cons] at hnd
    by_cases hp : p.1 = k
    · simp only [dictLookup, if_pos hp] at hl
      have hv : p.2 = v := Option.some.inj hl
      have hrest : rest.map (fun q => if q.1 = k then (k, v) else q) = rest := by
        apply map_set_id
        intro q hq hqk
        exact hnd.1 (by rw [← hp] at hqk; rw [← hqk]; exact List.mem_map.2 ⟨q, hq, rfl⟩)
      rw [List.map_cons, if_pos hp, hrest, ← hp, ← hv]
    · simp only [dictLookup, if_neg hp] at hl
      rw [List.map_cons, if_neg hp, ih hnd.2 hl]

theorem removeFromRoom_noop {rooms : List (String × List Conn)} {ws : Conn} {r : String}
    (hnd : (rooms.map Prod.fst).Nodup)
    (hc : match dictLookup rooms r with
          | none => True
          | some mem => ws ∉ mem ∧ mem ≠ []) :
    removeFromRoom rooms r ws = rooms := by
  unfold removeFromRoom
  cases hl : dictLookup rooms r with
  | none => rfl
  | some mem =>
    rw [hl] at hc
    obtain ⟨hwm, hne⟩ := hc
    have hdisc : setDiscard mem ws = mem := setDiscard_eq_of_not_mem hwm
    show (if (setDiscard mem ws).isEmpty then dictDel rooms r
      else dictSet rooms r (setDiscard mem ws)) = rooms
    rw [hdisc]
    have hie : mem.isEmpty = false := by
      cases mem with
      | nil => exact absurd rfl hne
      | cons a t => rfl
    simp only [hie, Bool.false_eq_true, if_neg, not_false_iff]
    exact dictSet_lookup_eq_self hnd hl

/-!  Characterization of the broadcast loop. -/

theorem broadcastLoop_spec (env : NetEnv) (exclude : Option Conn) (l : List Conn) :
    (broadcastLoop env exclude l).attempted
        = l.filter (fun ws => !env.closed ws && !(some ws == exclude))
    ∧ (broadcastLoop env exclude l).delivered
        = (broadcastLoop env exclude l).attempted.filter (fun ws => !env.sendFails ws)
    ∧ (broadcastLoop env exclude l).sent
        = (broadcastLoop env exclude l).delivered.length := by
  induction l with
  | nil => exact ⟨rfl, rfl, rfl⟩
  | cons ws rest ih =>
    obtain ⟨ih1, ih2, ih3⟩ := ih
    by_cases hc : env.closed ws = true
    · have hcond : (env.closed ws || (some ws == exclude)) = true := by
        rw [hc]
        exact Bool.true_or _
      have hfil : (!env.closed ws && !(some ws == exclude)) = false := by
        rw [hc]
        rfl
      simp only [broadcastLoop, hcond, if_pos, List.filter_cons, hfil, if_neg,
        Bool.false_eq_true, not_false_iff]
      exact ⟨ih1, ih2, ih3⟩
    · have hc' : env.closed ws = false := Bool.eq_false_iff.2 hc
      by_cases he : (some ws == exclude) = true
      · have hcond : (env.closed ws || (some ws == exclude)) = true := by
          rw [he]
          exact Bool.or_true _
        have hfil : (!env.closed ws && !(some ws == exclude)) = false := by
          rw [he]
          simp
        simp only [broadcastLoop, hcond, if_pos, List.filter_cons, hfil, if_neg,
          Bool.false_eq_true, not_false_iff]
        exact ⟨ih1, ih2, ih3⟩
      · have he' : (some ws == exclude) = false := Bool.eq_false_iff.2 he
        have hcond : (env.closed ws || (some ws == exclude)) = false := by
          rw [hc', he']
          rfl
        have hfil : (!env.closed ws && !(some ws == exclude)) = true := by
          rw [hc', he']
          rfl
        by_cases hf : env.sendFails ws = true
        · have hffil : (!env.sendFails ws) = false := by
            rw [hf]
            rfl
          simp only [broadcastLoop, hcond, Bool.false_eq_true, if_neg, not_false_iff,
            hf, if_pos, List.filter_cons, hfil, if_pos, hffil]
          exact ⟨by rw [ih1], by rw [ih2]; simp, ih3⟩
        · have hf' : env.sendFails ws = false := Bool.eq_false_iff.2 hf
          have hffil : (!env.sendFails ws) = true := by
            rw [hf']
            rfl
          simp only [broadcastLoop, hcond, Bool.false_eq_true, if_neg, not_false_iff,
            hf', List.filter_cons, hfil, if_pos, hffil]
          exact ⟨by rw [ih1], by rw [ih2]; simp, by rw [ih3, List.length_cons]⟩

theorem length_filter_not {α : Type} (l : List α) (p : α → Bool) :
    (l.filter p).length + (l.filter (fun a => !p a)).length = l.length := by
  induction l with
  | nil => rfl
  | cons a rest ih =>
    cases hp : p a <;>
      simp only [List.filter_cons, hp, Bool.not_true, Bool.not_false, if_pos, if_neg,
        Bool.false_eq_true, not_false_iff, List.length_cons] <;>
      omega

/-!  Claim theorems. -/

/-- C1, counterexample to the claim as stated: from the empty registry,
the single-operation sequence join_room(0, A) puts connection 0 into room
A without putting it into the global connection set, so the invariant
does not hold after that operation. -/
theorem registry_invariant_counterexample :
    ¬ InvRoomsSub (applyOps emptyManager [Op.join 0 "A"])
    ∧ 0 ∈ roomMembers (applyOps emptyManager [Op.join 0 "A"]) "A"
    ∧ 0 ∉ (applyOps emptyManager [Op.join 0 "A"]).connections := by
  refine ⟨?_, by decide, by decide⟩
  intro h
  exact absurd (h ("A", [0]) (by decide) 0 (by decide)) (by decide)

/-- C1, amended: for every sequence of connect/disconnect/join_room/
leave_room operations from the empty registry in which each join_room is
applied to a connection already in the global set and each disconnect is
applied only while the connection belongs to no room other than the
effectively-named one, the invariant (every connection in any room of the
index is in the global connection set) holds after each operation, i.e.
after every prefix of the sequence. -/
theorem registry_invariant_guarded_sequences (ops pre suf : List Op)
    (hg : guardedSeq emptyManager ops = true) (he : ops = pre ++ suf) :
    InvRoomsSub (applyOps emptyManager pre) := by
  rw [he] at hg
  exact invRoomsSub_applyOps invRoomsSub_empty (guardedSeq_append hg)

/-- Witness for C1's amended theorem at a concrete guarded sequence. -/
theorem registry_invariant_guarded_sequences_witness :
    InvRoomsSub (applyOps emptyManager
      [Op.connect 1 (some "A") none, Op.join 1 "B", Op.disconnect 2 none]) :=
  registry_invariant_guarded_sequences
    [Op.connect 1 (some "A") none, Op.join 1 "B", Op.disconnect 2 none,
      Op.leave 1 "B", Op.disconnect 1 (some "A")]
    [Op.connect 1 (some "A") none, Op.join 1 "B", Op.disconnect 2 none]
    [Op.leave 1 "B", Op.disconnect 1 (some "A")]
    (by decide) rfl

/-- C4: over every operation sequence from the empty registry, no room of
the index is ever empty (an existing-but-empty room is not observable);
the count of a room that no operation ever created (never joined) is 0
and it is absent from list_rooms; and a room whose last member is removed
by leave_room disappears from list_rooms. -/
theorem room_lifecycle_no_empty_rooms :
    (∀ ops : List Op, InvNoEmptyRoom (applyOps emptyManager ops))
    ∧ (∀ (ops : List Op) (r : String),
        (∀ op ∈ ops, opCreatesRoom r op = false) →
        get_room_count (applyOps emptyManager ops) r = 0
          ∧ r ∉ list_rooms (applyOps emptyManager ops))
    ∧ (∀ (m : WebSocketManager) (ws : Conn) (r : String) (mem : List Conn),
        dictLookup m.rooms r = some mem → setDiscard mem ws = [] →
        r ∉ list_rooms (leave_room m ws r)) := by
  refine ⟨fun ops => invNoEmptyRoom_applyOps ops invNoEmptyRoom_empty, ?_,
    fun m ws r mem hl he => leave_room_not_mem_keys hl he⟩
  intro ops r hnc
  have hl : dictLookup (applyOps emptyManager ops).rooms r = none :=
    lookup_none_applyOps rfl hnc
  constructor
  · unfold get_room_count
    rw [hl]
  · intro hmem
    obtain ⟨p, hp, hpe⟩ := List.mem_map.1 hmem
    exact dictLookup_eq_none_iff.1 hl p hp hpe

/-- Witness for C4 at concrete inputs: after join then leave of room t1
no room remains and a never-created room t2 reads count 0. -/
theorem room_lifecycle_no_empty_rooms_witness :
    InvNoEmptyRoom (applyOps emptyManager [Op.join 0 "t1", Op.leave 0 "t1"])
    ∧ get_room_count (applyOps emptyManager [Op.join 0 "t1", Op.leave 0 "t1"]) "t2" = 0
    ∧ "t1" ∉ list_rooms (leave_room (join_room emptyManager 0 "t1") 0 "t1") :=
  ⟨room_lifecycle_no_empty_rooms.1 [Op.join 0 "t1", Op.leave 0 "t1"],
   (room_lifecycle_no_empty_rooms.2.1 [Op.join 0 "t1", Op.leave 0 "t1"] "t2"
     (by decide)).1,
   room_lifecycle_no_empty_rooms.2.2 (join_room emptyManager 0 "t1") 0 "t1" [0]
     (by decide) (by decide)⟩

/-- C3: broadcast attempts the send exactly on the open, non-excluded
members of the target snapshot (independently of which sends fail, so one
failure never prevents the remaining attempts), counts exactly the
attempts that did not raise, and in the scenario of a target set with
exactly one closed connection, no failing sends and no exclusion it
returns the target size minus one. -/
theorem broadcast_count_and_partial_failure (env : NetEnv) (m : WebSocketManager)
    (msg : J) (room : Option String) (exclude : Option Conn) :
    ((broadcast env m msg room exclude).attempted
        = (broadcastTargets m room).filter
            (fun ws => !env.closed ws && !(some ws == exclude))
      ∧ (broadcast env m msg room exclude).delivered
          = (broadcast env m msg room exclude).attempted.filter
              (fun ws => !env.sendFails ws)
      ∧ (broadcast env m msg room exclude).sent
          = (broadcast env m msg room exclude).delivered.length)
    ∧ (exclude = none →
        (∀ ws ∈ broadcastTargets m room, env.sendFails ws = false) →
        ((broadcastTargets m room).filter (fun ws => env.closed ws)).length = 1 →
        (broadcast env m msg room exclude).sent
          = (broadcastTargets m room).length - 1) := by
  obtain ⟨h1, h2, h3⟩ := broadcastLoop_spec env exclude (broadcastTargets m room)
  refine ⟨⟨h1, h2, h3⟩, ?_⟩
  intro hex hnf hone
  subst hex
  unfold broadcast
  have hatt : (broadcastLoop env none (broadcastTargets m room)).attempted
      = (broadcastTargets m room).filter (fun ws => !env.closed ws) := by
    rw [h1]
    apply List.filter_congr
    intro ws _
    simp
  have hdel : (broadcastLoop env none (broadcastTargets m room)).delivered
      = (broadcastLoop env none (broadcastTargets m room)).attempted := by
    rw [h2]
    apply List.filter_eq_self.2
    intro ws hws
    rw [hatt] at hws
    rw [hnf ws (List.mem_filter.1 hws).1]
    rfl
  rw [h3, hdel, hatt]
  have hsum := length_filter_not (broadcastTargets m room) (fun ws => env.closed ws)
  rw [hone] at hsum
  omega

/-- Witness for C3: three open registered connections of which exactly
number 1 is closed; global broadcast reaches the other two. -/
theorem broadcast_count_and_partial_failure_witness :
    (broadcast envOneClosed mThree J.null none none).sent
      = (broadcastTargets mThree none).length - 1 :=
  (broadcast_count_and_partial_failure envOneClosed mThree J.null none none).2
    rfl (by decide) (by decide)

/-- C5, counterexample to the claim as stated: broadcasting to the room
named by the empty string falls back to the global connection set (the
code tests the room argument for Python truthiness, not for None), so a
globally registered connection that is not a member of that room still
receives the message. -/
theorem broadcast_empty_room_name_counterexample :
    0 ∈ (broadcast envAllOpen (connect emptyManager 0 none none) J.null
          (some "") none).delivered
    ∧ 0 ∉ roomMembers (connect emptyManager 0 none none) "" := by
  exact ⟨by decide, by decide⟩

/-- C5, amended: for every broadcast whose room argument is None or a
non-empty room name, every delivered connection is a member of the target
(the room's member set, or the global set for None) and is not the
excluded connection; the excluded connection never receives the message,
and a connection outside the target room never receives it.  A broadcast
to the room named by the empty string instead targets the global set. -/
theorem broadcast_isolation_and_exclude (env : NetEnv) (m : WebSocketManager)
    (msg : J) (room : Option String) (exclude : Option Conn)
    (h : room = none ∨ ∃ r, room = some r ∧ r ≠ "") :
    (∀ c ∈ (broadcast env m msg room exclude).delivered,
        c ∈ (match room with
             | none => m.connections
             | some r => roomMembers m r)
        ∧ some c ≠ exclude)
    ∧ (∀ c, some c = exclude → c ∉ (broadcast env m msg room exclude).delivered)
    ∧ (∀ (a : String) (c : Conn), room = some a → c ∉ roomMembers m a →
        c ∉ (broadcast env m msg room exclude).delivered) := by
  obtain ⟨h1, h2, _⟩ := broadcastLoop_spec env exclude (broadcastTargets m room)
  have hmain : ∀ c ∈ (broadcast env m msg room exclude).delivered,
      c ∈ (match room with
           | none => m.connections
           | some r => roomMembers m r)
      ∧ some c ≠ exclude := by
    intro c hc
    have hc1 : c ∈ (broadcastLoop env exclude (broadcastTargets m room)).attempted := by
      have := (List.mem_filter.1 (h2 ▸ hc)).1
      exact this
    rw [h1] at hc1
    have hc2 := List.mem_filter.1 hc1
    have htgt : c ∈ broadcastTargets m room := hc2.1
    have hcond := hc2.2
    have hnex : some c ≠ exclude := by
      intro he
      rw [← he] at hcond
      simp at hcond
    refine ⟨?_, hnex⟩
    rcases h with hn | ⟨r, hrq, hrne⟩
    · subst hn
      unfold broadcastTargets at htgt
      simpa [truthy] using htgt
    · subst hrq
      unfold broadcastTargets at htgt
      rw [truthy_some hrne] at htgt
      simpa [roomMembers] using htgt
  refine ⟨hmain, ?_, ?_⟩
  · intro c he hc
    exact (hmain c hc).2 he
  · intro a c hra hnm hc
    have := (hmain c hc).1
    rw [hra] at this
    exact hnm this

/-- Witness for C5: broadcasting to room A of a registry with rooms A and
B while excluding connection 1 delivers neither to the excluded member 1
nor to connection 2, a member of the disjoint room B only. -/
theorem broadcast_isolation_and_exclude_witness :
    1 ∉ (broadcast envAllOpen mRooms J.null (some "A") (some 1)).delivered
    ∧ 2 ∉ (broadcast envAllOpen mRooms J.null (some "A") (some 1)).delivered := by
  have h := broadcast_isolation_and_exclude envAllOpen mRooms J.null (some "A") (some 1)
    (Or.inr ⟨"A", rfl, by decide⟩)
  exact ⟨h.2.1 1 rfl, h.2.2 "A" 2 rfl (by decide)⟩

/-- C6, counterexample to the claim as stated: a connection can be a
member of a room without being in the global connection set (join_room
does not require registration); disconnecting such a connection with that
room named mutates the registry (it removes the membership and deletes
the room), so disconnect of a connection outside the global set is not
always a no-op. -/
theorem disconnect_unregistered_counterexample :
    0 ∉ (join_room emptyManager 0 "A").connections
    ∧ disconnect (join_room emptyManager 0 "A") 0 (some "A")
        ≠ join_room emptyManager 0 "A"
    ∧ roomMembers (join_room emptyManager 0 "A") "A" = [0]
    ∧ roomMembers (disconnect (join_room emptyManager 0 "A") 0 (some "A")) "A" = [] := by
  exact ⟨by decide, by decide, by decide, by decide⟩

/-- C6, amended: disconnect never raises (it is a total function), and it
leaves the registry unchanged provided the connection is outside the
global set, has no metadata entry, and the effectively-named room (if
any) either is absent or does not contain the connection and stays
non-empty; under the same room condition leave_room is a no-op.  The
room-key uniqueness hypothesis reflects that a Python dict cannot hold
duplicate keys. -/
theorem disconnect_unregistered_noop :
    (∀ (m : WebSocketManager) (ws : Conn) (room : Option String),
      (m.rooms.map Prod.fst).Nodup →
      ws ∉ m.connections →
      dictLookup m.connMeta ws = none →
      (∀ r, room = some r → r ≠ "" → roomNoopCondB m ws r = true) →
      disconnect m ws room = m)
    ∧ (∀ (m : WebSocketManager) (ws : Conn) (r : String),
      (m.rooms.map Prod.fst).Nodup →
      roomNoopCondB m ws r = true →
      leave_room m ws r = m) := by
  have hcond : ∀ (m : WebSocketManager) (ws : Conn) (r : String),
      roomNoopCondB m ws r = true →
      (match dictLookup m.rooms r with
       | none => True
       | some mem => ws ∉ mem ∧ mem ≠ []) := by
    intro m ws r hb
    unfold roomNoopCondB at hb
    cases hl : dictLookup m.rooms r with
    | none => trivial
    | some mem =>
      rw [hl] at hb
      rw [Bool.and_eq_true] at hb
      exact ⟨of_decide_eq_true hb.1, of_decide_eq_true hb.2⟩
  constructor
  · intro m ws room hnd hnc hnm hroom
    obtain ⟨conns, rooms, meta⟩ := m
    unfold disconnect
    by_cases ht : truthy room
    · obtain ⟨r, hrq, hrne⟩ : ∃ r, room = some r ∧ r ≠ "" := by
        cases room with
        | none => simp [truthy] at ht
        | some s =>
          refine ⟨s, rfl, ?_⟩
          intro hse
          rw [hse] at ht
          exact absurd ht (by decide)
      subst hrq
      simp only [ht, if_pos, Option.getD_some]
      have hrm : removeFromRoom rooms r ws = rooms :=
        removeFromRoom_noop hnd (hcond ⟨conns, rooms, meta⟩ ws r (hroom r rfl hrne))
      show (⟨setDiscard conns ws, removeFromRoom rooms r ws, dictDel meta ws⟩ :
        WebSocketManager) = ⟨conns, rooms, meta⟩
      rw [hrm, setDiscard_eq_of_not_mem hnc, dictDel_eq_of_lookup_none hnm]
    · simp only [ht, Bool.false_eq_true, if_neg, not_false_iff]
      rw [setDiscard_eq_of_not_mem hnc, dictDel_eq_of_lookup_none hnm]
  · intro m ws r hnd hb
    unfold leave_room
    rw [removeFromRoom_noop hnd (hcond m ws r hb)]

/-- Witness for C6's amended theorem: disconnecting the unregistered
connection 0 from a registry holding only connection 1 in room R leaves
the registry unchanged, as does leaving a room it never joined. -/
theorem disconnect_unregistered_noop_witness :
    disconnect (applyOps emptyManager [Op.connect 1 (some "R") none]) 0 (some "R")
      = applyOps emptyManager [Op.connect 1 (some "R") none]
    ∧ leave_room (applyOps emptyManager [Op.connect 1 (some "R") none]) 0 "Q"
      = applyOps emptyManager [Op.connect 1 (some "R") none] := by
  constructor
  · exact disconnect_unregistered_noop.1
      (applyOps emptyManager [Op.connect 1 (some "R") none]) 0 (some "R")
      (by decide) (by decide) (by decide)
      (by
        intro r hr hrne
        have hre : r = "R" := (Option.some.inj hr).symm
        subst hre
        decide)
  · exact disconnect_unregistered_noop.2
      (applyOps emptyManager [Op.connect 1 (some "R") none]) 0 "Q"
      (by decide) (by decide)

/-- C10, counterexample to the claim as stated: when the room named by
the empty string is given, disconnect does not remove the connection from
it (the code tests the room argument for truthiness, and the empty string
is falsy), although the connection is removed from the global set. -/
theorem disconnect_empty_room_name_counterexample :
    roomMembers (join_room (connect emptyManager 0 none none) 0 "") "" = [0]
    ∧ 0 ∈ roomMembers
        (disconnect (join_room (connect emptyManager 0 none none) 0 "") 0 (some "")) ""
    ∧ 0 ∉ (disconnect (join_room (connect emptyManager 0 none none) 0 "") 0
        (some "")).connections := by
  exact ⟨by decide, by decide, by decide⟩

/-- C10, amended: disconnect(ws, room) changes only the entries of ws
itself — ws leaves the global set while every other connection stays with
unchanged membership; ws's metadata entry is removed while every other
key of the metadata map is unchanged; when the room argument is falsy
(None or the empty string) the room index is untouched, and when a
non-empty room name is given only that key changes: every other room key
is unchanged, ws is no longer a member of the named room, and the named
room's entry becomes its old member set minus ws, deleted when that
became empty. -/
theorem disconnect_frame_condition (m : WebSocketManager) (ws : Conn)
    (room : Option String) :
    ws ∉ (disconnect m ws room).connections
    ∧ (∀ c, c ≠ ws →
        (c ∈ (disconnect m ws room).connections ↔ c ∈ m.connections))
    ∧ dictLookup (disconnect m ws room).connMeta ws = none
    ∧ (∀ c, c ≠ ws →
        dictLookup (disconnect m ws room).connMeta c = dictLookup m.connMeta c)
    ∧ (truthy room = false → (disconnect m ws room).rooms = m.rooms)
    ∧ (∀ r, room = some r → r ≠ "" →
        (∀ r', r' ≠ r →
          dictLookup (disconnect m ws room).rooms r' = dictLookup m.rooms r')
        ∧ ws ∉ roomMembers (disconnect m ws room) r
        ∧ (∀ mem, dictLookup m.rooms r = some mem →
            dictLookup (disconnect m ws room).rooms r
              = (if (setDiscard mem ws).isEmpty then none
                 else some (setDiscard mem ws)))) := by
  refine ⟨disconnect_not_mem_connections m ws room, ?_, ?_, ?_, ?_, ?_⟩
  · intro c hc
    rw [disconnect_connections, mem_setDiscard]
    exact ⟨fun h => h.1, fun h => ⟨h, hc⟩⟩
  · rw [disconnect_connMeta]
    exact dictLookup_dictDel_self
  · intro c hc
    rw [disconnect_connMeta]
    exact dictLookup_dictDel_ne hc
  · exact fun ht => disconnect_rooms_not_truthy ht
  · intro r hrq hrne
    subst hrq
    refine ⟨?_, disconnect_not_mem_room hrne, ?_⟩
    · intro r' hne
      rw [disconnect_rooms_truthy hrne]
      exact removeFromRoom_lookup_ne ws hne
    · intro mem hl
      rw [disconnect_rooms_truthy hrne]
      exact removeFromRoom_lookup_self hl

/-- Witness for C10 at a concrete registry: disconnecting connection 0
from room A leaves room B's entry and connection 1's membership alone
while 0 leaves room A. -/
theorem disconnect_frame_condition_witness :
    dictLookup (disconnect mRooms 0 (some "A")).rooms "B" = dictLookup mRooms.rooms "B"
    ∧ 0 ∉ roomMembers (disconnect mRooms 0 (some "A")) "A"
    ∧ (1 ∈ (disconnect mRooms 0 (some "A")).connections ↔ 1 ∈ mRooms.connections) := by
  have h := disconnect_frame_condition mRooms 0 (some "A")
  have hr := h.2.2.2.2.2 "A" rfl (by decide)
  exact ⟨hr.1 "B" (by decide), hr.2.1, h.2.1 1 (by decide)⟩

/-- C9: send_to is total (modelling that no exception escapes toward the
caller) and returns true exactly when the connection is open and the send
does not raise; it returns false whenever the connection is closed or the
send raises. -/
theorem send_to_returns_bool (env : NetEnv) (ws : Conn) (msg : J) :
    (send_to env ws msg = true
      ↔ env.closed ws = false ∧ env.sendFails ws = false)
    ∧ (env.closed ws = true ∨ env.sendFails ws = true → send_to env ws msg = false) := by
  unfold send_to
  by_cases hc : env.closed ws = true
  · simp [hc]
  · have hc' : env.closed ws = false := Bool.eq_false_iff.2 hc
    by_cases hf : env.sendFails ws = true
    · simp [hc', hf]
    · have hf' : env.sendFails ws = false := Bool.eq_false_iff.2 hf
      simp [hc', hf']

/-- Witness for C9: connection 1 is closed under envOneClosed, so the
send reports failure by returning false, and an open connection under
envAllOpen returns true. -/
theorem send_to_returns_bool_witness :
    send_to envOneClosed 1 J.null = false ∧ send_to envAllOpen 0 J.null = true :=
  ⟨(send_to_returns_bool envOneClosed 1 J.null).2 (Or.inl (by decide)),
   (send_to_returns_bool envAllOpen 0 J.null).1.2 ⟨by decide, by decide⟩⟩

/-- C7: a text frame whose payload fails to parse makes the session loop
send exactly one error reply (the Invalid JSON object) to the sender and
continue with the remaining frames from an unchanged manager state; no
on_message invocation is recorded for that frame, and a session fed only
that frame ends without error with its registration state untouched. -/
theorem loop_invalid_json_single_reply (env : NetEnv) (cbs : Callbacks) (ws : Conn)
    (rest : List Frame) (s : SessionState) :
    runLoop env cbs ws (Frame.text none :: rest) s
      = runLoop env cbs ws rest
          (logEvent s (Event.sentTo ws invalidJsonReply (send_to env ws invalidJsonReply)))
    ∧ (logEvent s (Event.sentTo ws invalidJsonReply
        (send_to env ws invalidJsonReply))).mgr = s.mgr
    ∧ (logEvent s (Event.sentTo ws invalidJsonReply
        (send_to env ws invalidJsonReply))).log
        = s.log ++ [Event.sentTo ws invalidJsonReply (send_to env ws invalidJsonReply)]
    ∧ (∀ d, Event.calledOnMessage ws d
        ∈ (logEvent s (Event.sentTo ws invalidJsonReply
            (send_to env ws invalidJsonReply))).log
        ↔ Event.calledOnMessage ws d ∈ s.log)
    ∧ (runLoop env cbs ws [Frame.text none] s).1.mgr = s.mgr
    ∧ (runLoop env cbs ws [Frame.text none] s).2 = none := by
  refine ⟨rfl, rfl, rfl, ?_, rfl, rfl⟩
  intro d
  unfold logEvent
  simp

/-- C8: a text frame parsing to d with no on_message installed makes the
session loop hand the sender exactly one reply, the envelope with type
echo and the parsed payload unchanged under data (sent successfully when
the socket is open and the send does not raise); the echo endpoint's
handler sends the identical envelope; and the envelope embeds d itself
under the data key with the echo discriminator under type. -/
theorem echo_roundtrip (env : NetEnv) (cbs : Callbacks) (ws : Conn) (d : J)
    (rest : List Frame) (s : SessionState)
    (hnone : cbs.on_message = none)
    (hopen : env.closed ws = false) (hfail : env.sendFails ws = false) :
    runLoop env cbs ws (Frame.text (some d) :: rest) s
      = runLoop env cbs ws rest
          (logEvent s (Event.sentTo ws (echoEnvelope d) true))
    ∧ echo_on_message env ws d s
        = Except.ok (logEvent s (Event.sentTo ws (echoEnvelope d) true))
    ∧ (echoEnvelope d).lookupField "data" = some d
    ∧ (echoEnvelope d).lookupField "type" = some (J.js "echo") := by
  have hsend : send_to env ws (echoEnvelope d) = true := by
    unfold send_to
    rw [hopen, hfail]
    rfl
  refine ⟨?_, ?_, ?_, ?_⟩
  · show (match cbs.on_message with
      | some f =>
        match f ws d (logEvent s (Event.calledOnMessage ws d)) with
        | Except.ok s1 => runLoop env cbs ws rest s1
        | Except.error e => (logEvent s (Event.calledOnMessage ws d), some e)
      | none =>
        runLoop env cbs ws rest
          (logEvent s (Event.sentTo ws (echoEnvelope d)
            (send_to env ws (echoEnvelope d)))))
      = runLoop env cbs ws rest (logEvent s (Event.sentTo ws (echoEnvelope d) true))
    rw [hnone, hsend]
  · unfold echo_on_message
    rw [hsend]
  · show (if "type" = "data" then some (J.js "echo")
      else J.lookupField (J.objCons "data" d J.objNil) "data") = some d
    rw [if_neg (by decide)]
    show (if "data" = "data" then some d else J.lookupField J.objNil "data") = some d
    rw [if_pos rfl]
  · show (if "type" = "type" then some (J.js "echo")
      else J.lookupField (J.objCons "data" d J.objNil) "type") = some (J.js "echo")
    rw [if_pos rfl]

/-- Witness for C8 with no callbacks, an open socket and payload null. -/
theorem echo_roundtrip_witness :
    (echoEnvelope J.null).lookupField "data" = some J.null
    ∧ echo_on_message envAllOpen 0 J.null emptySession
        = Except.ok (logEvent emptySession (Event.sentTo 0 (echoEnvelope J.null) true)) := by
  have h := echo_roundtrip envAllOpen cbsNone 0 J.null [] emptySession rfl rfl rfl
  exact ⟨h.2.2.1, h.2.1⟩

/-- C2, counterexample to the claim as stated: an exception raised by
on_connect happens before the try block of the handler, so neither
on_disconnect nor the deregistration runs — the error surfaces with the
connection still registered. -/
theorem handler_on_connect_exception_counterexample :
    (websocket_handler envAllOpen cbsOnConnectRaises none 0 [] emptySession).2 = some 3
    ∧ 0 ∈ (websocket_handler envAllOpen cbsOnConnectRaises none 0 []
        emptySession).1.mgr.connections
    ∧ Event.calledOnDisconnect 0
        ∉ (websocket_handler envAllOpen cbsOnConnectRaises none 0 [] emptySession).1.log
    ∧ Event.disconnected 0
        ∉ (websocket_handler envAllOpen cbsOnConnectRaises none 0 [] emptySession).1.log := by
  exact ⟨by decide, by decide, by decide, by decide⟩

/-- C2, amended: whenever on_connect is absent or returns normally and
on_disconnect is absent or returns normally, the handler run ends by
invoking on_disconnect (when given) and then unregistering the connection
from the registry and the effectively-named room, in that order, with the
loop's pending error (close, transport error, or an on_message exception)
surfacing only afterwards.  When on_connect raises, the finally path is
skipped (see the counterexample), and when on_disconnect raises, the
deregistration is skipped and its error replaces the pending one. -/
theorem handler_finally_path (env : NetEnv) (cbs : Callbacks) (room : Option String)
    (ws : Conn) (frames : List Frame) (s0 s3 s4 : SessionState)
    (hconn : runOnConnect cbs ws (afterConnect room ws s0) = Except.ok s3)
    (hdisc : runOnDisconnect cbs ws (runLoop env cbs ws frames s3).1 = Except.ok s4) :
    websocket_handler env cbs room ws frames s0
      = (logEvent { s4 with mgr := disconnect s4.mgr ws room } (Event.disconnected ws),
         (runLoop env cbs ws frames s3).2)
    ∧ ws ∉ (websocket_handler env cbs room ws frames s0).1.mgr.connections
    ∧ (∀ r, room = some r → r ≠ "" →
        ws ∉ roomMembers (websocket_handler env cbs room ws frames s0).1.mgr r)
    ∧ (websocket_handler env cbs room ws frames s0).1.log
        = s4.log ++ [Event.disconnected ws]
    ∧ (websocket_handler env cbs room ws frames s0).2
        = (runLoop env cbs ws frames s3).2 := by
  have hfin : runFinally cbs room ws (runLoop env cbs ws frames s3).1
        (runLoop env cbs ws frames s3).2
      = (logEvent { s4 with mgr := disconnect s4.mgr ws room } (Event.disconnected ws),
         (runLoop env cbs ws frames s3).2) := by
    unfold runFinally
    unfold runOnDisconnect at hdisc
    cases hod : cbs.on_disconnect with
    | none =>
      rw [hod] at hdisc
      have hdisc' : Except.ok ((runLoop env cbs ws frames s3).1)
          = (Except.ok s4 : Except Err SessionState) := hdisc
      have hs4 : s4 = (runLoop env cbs ws frames s3).1 :=
        (Except.ok.inj hdisc').symm
      subst hs4
      rfl
    | some g =>
      rw [hod] at hdisc
      have hdisc' : g ws (logEvent (runLoop env cbs ws frames s3).1
          (Event.calledOnDisconnect ws)) = Except.ok s4 := hdisc
      simp only [hdisc']
  have hmain : websocket_handler env cbs room ws frames s0
      = (logEvent { s4 with mgr := disconnect s4.mgr ws room } (Event.disconnected ws),
         (runLoop env cbs ws frames s3).2) := by
    unfold websocket_handler
    unfold runOnConnect at hconn
    cases hoc : cbs.on_connect with
    | none =>
      rw [hoc] at hconn
      have hconn' : Except.ok (afterConnect room ws s0)
          = (Except.ok s3 : Except Err SessionState) := hconn
      have hs3 : s3 = afterConnect room ws s0 := (Except.ok.inj hconn').symm
      subst hs3
      exact hfin
    | some f =>
      rw [hoc] at hconn
      have hconn' : f ws (logEvent (afterConnect room ws s0)
          (Event.calledOnConnect ws)) = Except.ok s3 := hconn
      simp only [hconn']
      exact hfin
  refine ⟨hmain, ?_, ?_, ?_, ?_⟩
  · rw [hmain]
    show ws ∉ (disconnect s4.mgr ws room).connections
    exact disconnect_not_mem_connections s4.mgr ws room
  · intro r hrq hrne
    subst hrq
    rw [hmain]
    show ws ∉ roomMembers (disconnect s4.mgr ws (some r)) r
    exact disconnect_not_mem_room hrne
  · rw [hmain]
    rfl
  · rw [hmain]

/-- Witness for C2's amended theorem: an on_message exception (error 7)
surfaces only after the handler has unregistered the connection. -/
theorem handler_finally_path_witness :
    (websocket_handler envAllOpen cbsOnMessageRaises (some "A") 0
        [Frame.text (some J.null)] emptySession).2 = some 7
    ∧ 0 ∉ (websocket_handler envAllOpen cbsOnMessageRaises (some "A") 0
        [Frame.text (some J.null)] emptySession).1.mgr.connections := by
  have h := handler_finally_path envAllOpen cbsOnMessageRaises (some "A") 0
    [Frame.text (some J.null)] emptySession
    (afterConnect (some "A") 0 emptySession)
    ((runLoop envAllOpen cbsOnMessageRaises 0 [Frame.text (some J.null)]
      (afterConnect (some "A") 0 emptySession)).1)
    rfl rfl
  refine ⟨?_, h.2.1⟩
  rw [h.2.2.2.2]
  decide

end WS
